import Mathlib

/-!
Shallow embedding of `src/lib/icinga/scheduleddowntime.cpp` (Icinga 2
scheduled-downtime engine): the segment selector `FindNextSegment`, the
reconciliation routine `CreateNextDowntime`, the range validator
`ValidateRanges` and the timer loop `TimerProc`, together with theorems
about the spec claims.

Timestamps (C++ `double` / `time_t`, used only for comparison here) are
modelled as `Int`.  The external collaborator
`LegacyTimePeriod::FindNextSegment` is a parameter `e` mapping a reference
time, a range key and a range value to an optional `(begin, end)` segment.
-/

set_option autoImplicit false

namespace Icinga

/-- Broken-down calendar time (C `struct tm`), as far as the code uses it. -/
structure Tm where
  tm_year : Int
  tm_mon : Int
  tm_mday : Int
  tm_hour : Int
  tm_min : Int
  tm_sec : Int
deriving DecidableEq

/-- A downtime record (`Downtime` object), with the fields the engine reads
or writes: `scheduledBy`, `configOwner`, `startTime`, `endTime`, `fixed`,
`duration`, `author`, `comment`, `triggeredBy`. -/
structure Downtime where
  scheduledBy : String
  configOwner : String
  startTime : Int
  endTime : Int
  fixed : Bool
  duration : Int
  author : String
  comment : String
  triggeredBy : String
deriving DecidableEq

/-- A `ScheduledDowntime` configuration object: its name, the `ranges`
dictionary (an ordered association list, matching the iteration order of
the C++ `Dictionary`), and the fields copied into created downtimes. -/
structure ScheduledDowntime where
  name : String
  ranges : List (String × String)
  fixed : Bool
  duration : Int
  author : String
  comment : String
deriving DecidableEq

/-- The type of the external evaluator
`LegacyTimePeriod::FindNextSegment(key, value, &reference)`: given the
reference time (here the raw `time_t` that `Utility::LocalTime` was applied
to) and a range key/value pair, it yields the next matching segment
`(begin, end)` or none. -/
def Evaluator : Type := Int → String → String → Option (Int × Int)

/-- One step of the best-segment accumulation in
`ScheduledDowntime::FindNextSegment`: keep the new segment when there is no
best yet or its begin is strictly smaller (`!bestSegment || begin < bestBegin`). -/
def segStep (best : Option (Int × Int)) (seg : Int × Int) : Option (Int × Int) :=
  match best with
  | none => some seg
  | some b => if seg.1 < b.1 then some seg else some b

/-- One loop iteration of `ScheduledDowntime::FindNextSegment` over a
`ranges` entry `kv`: evaluate the segment; skip when the evaluator returns
null or the segment begins in the past (`begin < now`); otherwise fold it
into the running best. -/
def rangeStep (e : Evaluator) (refts now : Int) (best : Option (Int × Int))
    (kv : String × String) : Option (Int × Int) :=
  match e refts kv.1 kv.2 with
  | none => best
  | some seg => if seg.1 < now then best else segStep best seg

/-- The best segment accumulated by the loop of
`ScheduledDowntime::FindNextSegment` (lines 116-138): `bestSegment` after
iterating all of `ranges`. -/
def bestCand (e : Evaluator) (refts now : Int) (ranges : List (String × String)) :
    Option (Int × Int) :=
  ranges.foldl (rangeStep e refts now) none

/-- `ScheduledDowntime::FindNextSegment`: returns the best segment, or the
sentinel pair `(0, 0)` when no candidate survived.  `refts` and `now` are
the two `Utility::GetTime()` reads (lines 102 and 114). -/
def findNextSegment (e : Evaluator) (refts now : Int)
    (ranges : List (String × String)) : Int × Int :=
  match bestCand e refts now ranges with
  | some b => b
  | none => (0, 0)

/-- The list of eligible candidates, in rule order: for each `ranges` entry
the evaluator result, kept only when present and not beginning before
`now`.  This is the selection pool the loop of `FindNextSegment` draws
from. -/
def eligible (e : Evaluator) (refts now : Int) (ranges : List (String × String)) :
    List (Int × Int) :=
  ranges.filterMap fun kv =>
    match e refts kv.1 kv.2 with
    | none => none
    | some seg => if seg.1 < now then none else some seg

/-- The idempotency scan of `ScheduledDowntime::CreateNextDowntime`
(lines 150-162): some stored downtime is owned by this schedule
(`scheduledBy == name`) and has not started yet (`!(startTime < now)`). -/
def hasPendingOwnWindow (name : String) (now : Int) (store : List Downtime) : Bool :=
  store.any fun d => d.scheduledBy == name && !(decide (d.startTime < now))

/-- Modelled from the spec: `Target.AddWindow(fields) -> windowId`
(`Checkable::AddDowntime`, which is not part of this repository slice):
appends a window record carrying exactly the supplied fields, with an
empty `configOwner`, and returns the identifier of the new record
(here its index). -/
def addDowntime (author comment : String) (startTime endTime : Int) (fixed : Bool)
    (triggeredBy : String) (duration : Int) (scheduledBy : String)
    (store : List Downtime) : List Downtime × Nat :=
  (store ++ [{ scheduledBy := scheduledBy, configOwner := "",
               startTime := startTime, endTime := endTime, fixed := fixed,
               duration := duration, author := author, comment := comment,
               triggeredBy := triggeredBy }], store.length)

/-- Modelled from the spec: fetching the freshly created window by its id
(`Checkable::GetDowntimeByID`) and setting its `configOwner`
(`Downtime::SetConfigOwner`), neither of which is part of this repository
slice. -/
def setConfigOwner (uid : Nat) (owner : String) (store : List Downtime) :
    List Downtime :=
  match store[uid]? with
  | none => store
  | some d => store.set uid { d with configOwner := owner }

/-- The dead "next midnight" computation in the no-segment branch of
`CreateNextDowntime` (lines 167-171): `tm_mday++`, zero the time-of-day
fields.  The result is never used. -/
def deadMidnight (reference : Tm) : Tm :=
  { reference with tm_mday := reference.tm_mday + 1, tm_hour := 0,
                   tm_min := 0, tm_sec := 0 }

/-- `ScheduledDowntime::CreateNextDowntime` acting on the target downtime
store: return unchanged when a pending self-owned window exists; otherwise
find the next segment; on the `(0, 0)` sentinel compute (and discard) the
next-midnight reference and return unchanged; otherwise add the downtime
with the schedule fields and set its `configOwner` to the schedule name.
`midnightRef` is the `Utility::LocalTime(Utility::GetTime())` value of the
dead branch. -/
def createNextDowntime (e : Evaluator) (refts now : Int) (midnightRef : Tm)
    (sd : ScheduledDowntime) (store : List Downtime) : List Downtime :=
  if hasPendingOwnWindow sd.name now store then store
  else
    let segment := findNextSegment e refts now sd.ranges
    if segment.1 = 0 ∧ segment.2 = 0 then
      let _ := deadMidnight midnightRef
      store
    else
      let p := addDowntime sd.author sd.comment segment.1 segment.2 sd.fixed ""
        sd.duration sd.name store
      setConfigOwner p.2 sd.name p.1

/-- A single quote character, for building the validation messages. -/
def sq : String := String.mk [Char.ofNat 39]

/-- A validation error as thrown by `ValidateRanges`: the attribute path
(`boost::assign::list_of("ranges")`) and the message. -/
structure ValidationError where
  attrPath : List String
  message : String
deriving DecidableEq

/-- The type of the external parsers used at validation time
(`LegacyTimePeriod::ParseTimeRange` / `ProcessTimeRanges`): given the text
and the reference time they succeed or fail with a message (`ex.what()`). -/
def RangeParse : Type := String → Tm → Except String Unit

/-- The loop body of `ScheduledDowntime::ValidateRanges` over the entries:
parse the key (throwing `Invalid time specification ...` on failure), then
the value (throwing `Invalid time range definition ...`), then continue
with the rest.  A thrown `ValidationError` aborts the loop. -/
def validateRangesLoop (parseKey parseValue : RangeParse) (reference : Tm) :
    List (String × String) → Except ValidationError Unit
  | [] => Except.ok ()
  | kv :: rest =>
    match parseKey kv.1 reference with
    | Except.error msg =>
      Except.error
        { attrPath := ["ranges"]
          message := "Invalid time specification " ++ sq ++ kv.1 ++ sq ++ ": " ++ msg }
    | Except.ok _ =>
      match parseValue kv.2 reference with
      | Except.error msg =>
        Except.error
          { attrPath := ["ranges"]
            message := "Invalid time range definition " ++ sq ++ kv.2 ++ sq ++ ": " ++ msg }
      | Except.ok _ => validateRangesLoop parseKey parseValue reference rest

/-- `ScheduledDowntime::ValidateRanges`: a null dictionary passes; otherwise
each entry is checked in order against the fake reference time, and the
first failure is thrown as a `ValidationError`. -/
def validateRanges (parseKey parseValue : RangeParse) (reference : Tm) :
    Option (List (String × String)) → Except ValidationError Unit
  | none => Except.ok ()
  | some value => validateRangesLoop parseKey parseValue reference value

/-- `ScheduledDowntime::TimerProc`: iterate the live schedules (each paired
with its target store) and run reconciliation on each; `step` abstracts one
`sd->CreateNextDowntime()` call, which may throw.  There is no handler in
the loop, so a thrown exception propagates and the remaining schedules are
not processed. -/
def timerProc (step : ScheduledDowntime → List Downtime → Except String (List Downtime)) :
    List (ScheduledDowntime × List Downtime) →
    Except String (List (ScheduledDowntime × List Downtime))
  | [] => Except.ok []
  | (sd, st) :: rest =>
    match step sd st with
    | Except.error msg => Except.error msg
    | Except.ok st2 =>
      match timerProc step rest with
      | Except.error msg => Except.error msg
      | Except.ok rest2 => Except.ok ((sd, st2) :: rest2)

/-- `ScheduledDowntime::FindNextSegment` as a state transformer on the
schedule-plus-store state, exactly as the method runs: it reads
`GetRanges()` and performs no write, so the state component of the result
is the input state. -/
structure EvalState where
  sd : ScheduledDowntime
  store : List Downtime

/-- The stateful run of `FindNextSegment`: result paired with the
(unchanged) state. -/
def findNextSegmentRun (e : Evaluator) (refts now : Int) (st : EvalState) :
    (Int × Int) × EvalState :=
  (findNextSegment e refts now st.sd.ranges, st)

/-! ### Concrete instances used by witnesses and counterexamples -/

/-- A concrete evaluator: two rules tie on begin 100, one rule matches only
in the past, anything else never matches. -/
def evalW : Evaluator := fun _ k _ =>
  if k = "monday" then some (100, 200)
  else if k = "tuesday" then some (100, 300)
  else if k = "past" then some (5, 50)
  else none

/-- A concrete `ranges` dictionary, in declaration order. -/
def ranW : List (String × String) := [("past", "x"), ("monday", "x"), ("tuesday", "x")]

/-- A concrete schedule over `ranW`. -/
def sdW : ScheduledDowntime :=
  { name := "host1!S", ranges := ranW, fixed := true, duration := 0,
    author := "adm", comment := "maint" }

/-- A schedule none of whose rules ever matches under `evalW`. -/
def sdZ : ScheduledDowntime :=
  { name := "host1!Z", ranges := [("z", "x")], fixed := true, duration := 0,
    author := "adm", comment := "maint" }

/-- A broken-down reference time. -/
def tmW : Tm :=
  { tm_year := 115, tm_mon := 5, tm_mday := 15, tm_hour := 12, tm_min := 0, tm_sec := 0 }

/-- A second, different broken-down reference time. -/
def tmW2 : Tm :=
  { tm_year := 116, tm_mon := 1, tm_mday := 2, tm_hour := 3, tm_min := 4, tm_sec := 5 }

/-- A pending window owned by `sdW` (starting at 150, after `now = 10`). -/
def dwW : Downtime :=
  { scheduledBy := "host1!S", configOwner := "", startTime := 150, endTime := 160,
    fixed := true, duration := 0, author := "adm", comment := "maint", triggeredBy := "" }

/-- States sharing the same `ranges` but differing elsewhere. -/
def st1W : EvalState := { sd := sdW, store := [] }

/-- A second state with the same `ranges` as `st1W`. -/
def st2W : EvalState :=
  { sd := { name := "other", ranges := ranW, fixed := false, duration := 5,
            author := "x", comment := "y" },
    store := [dwW] }

/-- A reference time for validation runs. -/
def refTm0 : Tm :=
  { tm_year := 115, tm_mon := 0, tm_mday := 1, tm_hour := 0, tm_min := 0, tm_sec := 0 }

/-- A key parser that always fails. -/
def pkFail : RangeParse := fun _ _ => Except.error "bad key"

/-- A value parser that always fails. -/
def pvFail : RangeParse := fun _ _ => Except.error "bad value"

/-- A key parser that always succeeds. -/
def pkOk : RangeParse := fun _ _ => Except.ok ()

/-- A value parser that always succeeds. -/
def pvOk : RangeParse := fun _ _ => Except.ok ()

/-- A key parser that fails exactly on the key `"bad"`. -/
def pkSel : RangeParse := fun s _ =>
  if s = "bad" then Except.error "bad key" else Except.ok ()

/-- Two live schedules for scheduler-loop runs. -/
def sdA : ScheduledDowntime :=
  { name := "A", ranges := [], fixed := true, duration := 0, author := "a", comment := "c" }

/-- The second live schedule. -/
def sdB : ScheduledDowntime :=
  { name := "B", ranges := [], fixed := true, duration := 0, author := "a", comment := "c" }

/-- A window that a successful reconciliation appends. -/
def wB : Downtime :=
  { scheduledBy := "B", configOwner := "", startTime := 1, endTime := 2,
    fixed := true, duration := 0, author := "a", comment := "c", triggeredBy := "" }

/-- A reconciliation step that throws for schedule `"A"` and succeeds for
everyone else. -/
def stepFailA : ScheduledDowntime → List Downtime → Except String (List Downtime) :=
  fun sd st => if sd.name = "A" then Except.error "boom" else Except.ok (st ++ [wB])

/-- A reconciliation step that always succeeds. -/
def stepOkW : ScheduledDowntime → List Downtime → Except String (List Downtime) :=
  fun _ st => Except.ok (st ++ [wB])

/-! ### Helper lemmas about the segment-selection fold -/

/-- The loop of `FindNextSegment` over the `ranges` entries is the plain
best-so-far fold over the eligible candidate list. -/
theorem foldl_rangeStep_eq_eligible (e : Evaluator) (refts now : Int) :
    ∀ (ranges : List (String × String)) (acc : Option (Int × Int)),
      ranges.foldl (rangeStep e refts now) acc
        = (eligible e refts now ranges).foldl segStep acc := by
  intro ranges
  induction ranges with
  | nil => intro acc; rfl
  | cons kv rest ih =>
    intro acc
    simp only [List.foldl_cons, eligible, List.filterMap_cons]
    cases h : e refts kv.1 kv.2 with
    | none =>
      simpa [rangeStep, h, eligible] using ih acc
    | some seg =>
      by_cases hlt : seg.1 < now
      · simpa [rangeStep, h, hlt, eligible] using ih acc
      · simpa [rangeStep, h, hlt, eligible] using ih (segStep acc seg)

/-- Folding `segStep` from a seed yields the first minimum of the seeded
list: the result is an element, every element strictly before it in the
list has a strictly larger begin, and no element has a smaller begin. -/
theorem foldl_segStep_decomp :
    ∀ (l : List (Int × Int)) (b : Int × Int),
      ∃ c l1 l2, l.foldl segStep (some b) = some c ∧ b :: l = l1 ++ c :: l2
        ∧ (∀ s ∈ l1, c.1 < s.1) ∧ (∀ s ∈ b :: l, c.1 ≤ s.1) := by
  intro l
  induction l with
  | nil =>
    intro b
    exact ⟨b, [], [], rfl, rfl, by simp, by simp⟩
  | cons s t ih =>
    intro b
    by_cases hlt : s.1 < b.1
    · obtain ⟨c, l1, l2, hfold, hdec, hstrict, hmin⟩ := ih s
      have hcs : c.1 ≤ s.1 := hmin s (by simp)
      refine ⟨c, b :: l1, l2, ?_, ?_, ?_, ?_⟩
      · simpa [List.foldl_cons, segStep, hlt] using hfold
      · simpa using congrArg (List.cons b) hdec
      · intro x hx
        rcases List.mem_cons.mp hx with rfl | hx
        · exact lt_of_le_of_lt hcs hlt
        · exact hstrict x hx
      · intro x hx
        rcases List.mem_cons.mp hx with rfl | hx
        · exact le_of_lt (lt_of_le_of_lt hcs hlt)
        · exact hmin x hx
    · obtain ⟨c, l1, l2, hfold, hdec, hstrict, hmin⟩ := ih b
      have hfold2 : (s :: t).foldl segStep (some b) = some c := by
        simpa [List.foldl_cons, segStep, hlt] using hfold
      have hbs : b.1 ≤ s.1 := le_of_not_lt hlt
      cases l1 with
      | nil =>
        obtain ⟨rfl, rfl⟩ : b = c ∧ t = l2 := by
          have := hdec
          simp only [List.nil_append, List.cons.injEq] at this
          exact ⟨this.1, this.2⟩
        refine ⟨b, [], s :: t, hfold2, by simp, by simp, ?_⟩
        intro x hx
        rcases List.mem_cons.mp hx with rfl | hx
        · exact le_refl _
        · rcases List.mem_cons.mp hx with rfl | hx
          · exact hbs
          · exact hmin x (by simp [hx])
      | cons h1 r =>
        have hinj := hdec
        simp only [List.cons_append, List.cons.injEq] at hinj
        obtain ⟨hb1, ht⟩ := hinj
        have hcb : c.1 < b.1 := by
          rw [hb1]; exact hstrict h1 (by simp)
        refine ⟨c, b :: s :: r, l2, hfold2, by simp [ht], ?_, ?_⟩
        · intro x hx
          rcases List.mem_cons.mp hx with rfl | hx
          · exact hcb
          · rcases List.mem_cons.mp hx with rfl | hx
            · exact lt_of_lt_of_le hcb hbs
            · refine hstrict x ?_
              rw [← hb1]
              simp [hx]
        · intro x hx
          rcases List.mem_cons.mp hx with rfl | hx
          · exact le_of_lt hcb
          · rcases List.mem_cons.mp hx with rfl | hx
            · exact le_trans (le_of_lt hcb) hbs
            · exact hmin x (List.mem_cons_of_mem b hx)

/-- The accumulated best segment is the first minimum of the eligible
candidate list, whenever a candidate exists. -/
theorem bestCand_spec (e : Evaluator) (refts now : Int)
    (ranges : List (String × String))
    (h : eligible e refts now ranges ≠ []) :
    ∃ c l1 l2, bestCand e refts now ranges = some c
      ∧ eligible e refts now ranges = l1 ++ c :: l2
      ∧ (∀ s ∈ l1, c.1 < s.1)
      ∧ (∀ s ∈ eligible e refts now ranges, c.1 ≤ s.1) := by
  have hb : bestCand e refts now ranges
      = (eligible e refts now ranges).foldl segStep none :=
    foldl_rangeStep_eq_eligible e refts now ranges none
  cases hel : eligible e refts now ranges with
  | nil => exact absurd hel h
  | cons c0 t =>
    obtain ⟨c, l1, l2, hfold, hdec, hstrict, hmin⟩ := foldl_segStep_decomp t c0
    refine ⟨c, l1, l2, ?_, hdec, hstrict, ?_⟩
    · rw [hb, hel]
      simpa [List.foldl_cons, segStep] using hfold
    · intro s hs
      exact hmin s hs

/-- When the eligible list is empty the loop yields no best segment. -/
theorem bestCand_eq_none (e : Evaluator) (refts now : Int)
    (ranges : List (String × String))
    (h : eligible e refts now ranges = []) :
    bestCand e refts now ranges = none := by
  have hb : bestCand e refts now ranges
      = (eligible e refts now ranges).foldl segStep none :=
    foldl_rangeStep_eq_eligible e refts now ranges none
  rw [hb, h]
  rfl

/-- Any best segment produced by the loop is one of the eligible
candidates. -/
theorem bestCand_mem (e : Evaluator) (refts now : Int)
    (ranges : List (String × String)) {b : Int × Int}
    (h : bestCand e refts now ranges = some b) :
    b ∈ eligible e refts now ranges := by
  by_cases hel : eligible e refts now ranges = []
  · rw [bestCand_eq_none e refts now ranges hel] at h
    cases h
  · obtain ⟨c, l1, l2, hc, hdec, _, _⟩ := bestCand_spec e refts now ranges hel
    rw [hc] at h
    cases h
    rw [hdec]
    simp

/-- Every eligible candidate begins at or after `now` (the `begin < now`
filter). -/
theorem mem_eligible_ge (e : Evaluator) (refts now : Int)
    (ranges : List (String × String)) {s : Int × Int}
    (hs : s ∈ eligible e refts now ranges) : now ≤ s.1 := by
  simp only [eligible, List.mem_filterMap] at hs
  obtain ⟨kv, _, hkv⟩ := hs
  cases h : e refts kv.1 kv.2 with
  | none => rw [h] at hkv; cases hkv
  | some seg =>
    rw [h] at hkv
    by_cases hlt : seg.1 < now
    · simp [hlt] at hkv
    · have hss : seg = s := by simpa [hlt] using hkv
      rw [← hss]
      exact le_of_not_lt hlt

/-- A rule whose evaluation yields a segment not beginning in the past
contributes that segment to the eligible list. -/
theorem mem_eligible_of (e : Evaluator) (refts now : Int)
    (ranges : List (String × String)) {kv : String × String} {s : Int × Int}
    (hkv : kv ∈ ranges) (he : e refts kv.1 kv.2 = some s) (hge : now ≤ s.1) :
    s ∈ eligible e refts now ranges := by
  simp only [eligible, List.mem_filterMap]
  refine ⟨kv, hkv, ?_⟩
  rw [he]
  simp [not_lt.mpr hge]

/-! ### Helper lemmas about the downtime store and `CreateNextDowntime` -/

/-- Indexing a concatenation at the length of the prefix yields the
appended element. -/
theorem getElem?_concat (l : List Downtime) (w : Downtime) :
    (l ++ [w])[l.length]? = some w := by
  induction l with
  | nil => rfl
  | cons d rest _ => simp

/-- Setting a concatenation at the length of the prefix replaces the
appended element. -/
theorem set_concat (l : List Downtime) (w w2 : Downtime) :
    (l ++ [w]).set l.length w2 = l ++ [w2] := by
  induction l with
  | nil => rfl
  | cons d rest _ => simp

/-- Updating the `configOwner` of the record just appended. -/
theorem setConfigOwner_concat (owner : String) (l : List Downtime) (w : Downtime) :
    setConfigOwner l.length owner (l ++ [w])
      = l ++ [{ w with configOwner := owner }] := by
  simp [setConfigOwner, getElem?_concat, set_concat]

/-- A stored window owned by the schedule and not starting before `now`
makes the idempotency scan succeed. -/
theorem hasPending_of_mem {name : String} {now : Int} {store : List Downtime}
    {d : Downtime} (hd : d ∈ store) (hs : d.scheduledBy = name)
    (hge : now ≤ d.startTime) : hasPendingOwnWindow name now store = true := by
  simp only [hasPendingOwnWindow, List.any_eq_true]
  exact ⟨d, hd, by simp [hs, not_lt.mpr hge]⟩

/-- When the idempotency check is negative, the selected segment exists and
is not the sentinel, `CreateNextDowntime` appends exactly one window built
from the segment and the schedule fields, with `configOwner` set to the
schedule name. -/
theorem createNextDowntime_creation_eq (e : Evaluator) (refts now : Int)
    (midnightRef : Tm) (sd : ScheduledDowntime) (store : List Downtime)
    (seg : Int × Int)
    (hp : hasPendingOwnWindow sd.name now store = false)
    (hb : bestCand e refts now sd.ranges = some seg)
    (hz : ¬(seg.1 = 0 ∧ seg.2 = 0)) :
    createNextDowntime e refts now midnightRef sd store
      = store ++
        [{ scheduledBy := sd.name
           configOwner := sd.name
           startTime := seg.1
           endTime := seg.2
           fixed := sd.fixed
           duration := sd.duration
           author := sd.author
           comment := sd.comment
           triggeredBy := "" }] := by
  have hfs : findNextSegment e refts now sd.ranges = seg := by
    simp [findNextSegment, hb]
  have hlen : (addDowntime sd.author sd.comment seg.1 seg.2 sd.fixed ""
      sd.duration sd.name store).2 = store.length := rfl
  simp [createNextDowntime, hp, hfs, hz, addDowntime, setConfigOwner_concat]

/-- `CreateNextDowntime` either leaves the store unchanged or appends one
window owned by the schedule whose start is at or after `now`. -/
theorem createNextDowntime_cases (e : Evaluator) (refts now : Int)
    (midnightRef : Tm) (sd : ScheduledDowntime) (store : List Downtime) :
    createNextDowntime e refts now midnightRef sd store = store
    ∨ ∃ w, createNextDowntime e refts now midnightRef sd store = store ++ [w]
        ∧ w.scheduledBy = sd.name ∧ now ≤ w.startTime := by
  by_cases hp : hasPendingOwnWindow sd.name now store = true
  · left; simp [createNextDowntime, hp]
  · have hp2 : hasPendingOwnWindow sd.name now store = false := by
      simpa using hp
    cases hbc : bestCand e refts now sd.ranges with
    | none =>
      left
      have hfs : findNextSegment e refts now sd.ranges = (0, 0) := by
        simp [findNextSegment, hbc]
      simp [createNextDowntime, hp2, hfs]
    | some seg =>
      by_cases hz : seg.1 = 0 ∧ seg.2 = 0
      · left
        have hfs : findNextSegment e refts now sd.ranges = seg := by
          simp [findNextSegment, hbc]
        simp [createNextDowntime, hp2, hfs, hz]
      · right
        exact ⟨_,
          createNextDowntime_creation_eq e refts now midnightRef sd store seg hp2 hbc hz,
          rfl,
          mem_eligible_ge e refts now sd.ranges (bestCand_mem e refts now sd.ranges hbc)⟩

/-! ### Helper lemmas about `ValidateRanges` -/

/-- Entries that parse cleanly are traversed without effect: the validation
loop over a clean prefix continues with the remaining entries. -/
theorem validateRangesLoop_append_ok (parseKey parseValue : RangeParse)
    (reference : Tm) :
    ∀ (l1 : List (String × String)),
      (∀ kv ∈ l1, parseKey kv.1 reference = Except.ok ()
        ∧ parseValue kv.2 reference = Except.ok ()) →
      ∀ rest, validateRangesLoop parseKey parseValue reference (l1 ++ rest)
        = validateRangesLoop parseKey parseValue reference rest := by
  intro l1
  induction l1 with
  | nil => intro _ rest; rfl
  | cons kv t ih =>
    intro hok rest
    have hk := (hok kv (by simp)).1
    have hv := (hok kv (by simp)).2
    simp only [List.cons_append, validateRangesLoop, hk, hv]
    exact ih (fun x hx => hok x (by simp [hx])) rest

/-- A loop that returns success parsed every entry successfully. -/
theorem validateRangesLoop_ok (parseKey parseValue : RangeParse)
    (reference : Tm) :
    ∀ (l : List (String × String)),
      validateRangesLoop parseKey parseValue reference l = Except.ok () →
      ∀ kv ∈ l, parseKey kv.1 reference = Except.ok ()
        ∧ parseValue kv.2 reference = Except.ok () := by
  intro l
  induction l with
  | nil => intro _ kv hkv; cases hkv
  | cons x t ih =>
    intro hl kv hkv
    have hx1 : ∃ u, parseKey x.1 reference = Except.ok u := by
      cases h : parseKey x.1 reference with
      | error msg => simp [validateRangesLoop, h] at hl
      | ok u => exact ⟨u, rfl⟩
    obtain ⟨u, hu⟩ := hx1
    have hvv : ∃ u2, parseValue x.2 reference = Except.ok u2 := by
      cases h : parseValue x.2 reference with
      | error msg => simp [validateRangesLoop, hu, h] at hl
      | ok u2 => exact ⟨u2, rfl⟩
    obtain ⟨u2, hu2⟩ := hvv
    have hrest : validateRangesLoop parseKey parseValue reference t
        = Except.ok () := by
      simpa [validateRangesLoop, hu, hu2] using hl
    rcases List.mem_cons.mp hkv with rfl | hkv
    · exact ⟨by cases u; exact hu, by cases u2; exact hu2⟩
    · exact ih hrest kv hkv

/-! ### Claim theorems -/

/-- Claim C2: for every non-empty pool of eligible candidates (segments
produced by the rules with begin at or after now), `FindNextSegment`
returns a candidate of the pool with the smallest begin, and among the
candidates sharing that minimal begin it returns the one produced by the
rule iterated first: every candidate from an earlier-declared rule has a
strictly larger begin, and no candidate has a smaller one. -/
theorem findNextSegment_first_minimal (e : Evaluator) (refts now : Int)
    (ranges : List (String × String))
    (h : eligible e refts now ranges ≠ []) :
    ∃ l1 l2, eligible e refts now ranges
        = l1 ++ findNextSegment e refts now ranges :: l2
      ∧ (∀ s ∈ l1, (findNextSegment e refts now ranges).1 < s.1)
      ∧ (∀ s ∈ eligible e refts now ranges,
          (findNextSegment e refts now ranges).1 ≤ s.1) := by
  obtain ⟨c, l1, l2, hbc, hdec, hstrict, hmin⟩ := bestCand_spec e refts now ranges h
  have hfs : findNextSegment e refts now ranges = c := by
    simp [findNextSegment, hbc]
  rw [hfs]
  exact ⟨l1, l2, hdec, hstrict, hmin⟩

/-- Witness for C2: under `evalW` at `now = 10` (rules `past`, `monday`,
`tuesday` in that order, `monday` and `tuesday` tying at begin 100). -/
theorem findNextSegment_first_minimal_witness :
    eligible evalW 9 10 ranW ≠ []
    ∧ ∃ l1 l2, eligible evalW 9 10 ranW
          = l1 ++ findNextSegment evalW 9 10 ranW :: l2
        ∧ (∀ s ∈ l1, (findNextSegment evalW 9 10 ranW).1 < s.1)
        ∧ (∀ s ∈ eligible evalW 9 10 ranW,
            (findNextSegment evalW 9 10 ranW).1 ≤ s.1) :=
  ⟨by decide, findNextSegment_first_minimal evalW 9 10 ranW (by decide)⟩

/-- Claim C5: a candidate beginning strictly before `now` is never in the
selection pool (every eligible candidate begins at or after `now`), a
candidate beginning exactly at `now` stays eligible, and the selected best
segment always comes from the eligible pool. -/
theorem findNextSegment_rejects_past (e : Evaluator) (refts now : Int)
    (ranges : List (String × String)) :
    (∀ s ∈ eligible e refts now ranges, now ≤ s.1)
    ∧ (∀ kv ∈ ranges, ∀ s : Int × Int, e refts kv.1 kv.2 = some s → s.1 = now →
        s ∈ eligible e refts now ranges)
    ∧ (∀ b, bestCand e refts now ranges = some b →
        b ∈ eligible e refts now ranges) :=
  ⟨fun _ hs => mem_eligible_ge e refts now ranges hs,
   fun _ hkv _ he heq =>
     mem_eligible_of e refts now ranges hkv he (le_of_eq heq.symm),
   fun _ hb => bestCand_mem e refts now ranges hb⟩

/-- Witness for C5: the eligible candidate `(100, 200)` of `evalW` begins
at or after `now = 10`. -/
theorem findNextSegment_rejects_past_witness :
    ((100, 200) : Int × Int) ∈ eligible evalW 9 10 ranW
    ∧ (10 : Int) ≤ ((100, 200) : Int × Int).1 :=
  ⟨by decide, (findNextSegment_rejects_past evalW 9 10 ranW).1 (100, 200) (by decide)⟩

/-- Claim C9: `FindNextSegment` is free of side effects (the state after a
run equals the state before) and deterministic: two runs over states with
the same `ranges`, the same evaluator and the same clock values return the
same segment pair. -/
theorem findNextSegmentRun_pure (e : Evaluator) (refts now : Int) :
    (∀ st : EvalState, (findNextSegmentRun e refts now st).2 = st)
    ∧ ∀ st1 st2 : EvalState, st1.sd.ranges = st2.sd.ranges →
        (findNextSegmentRun e refts now st1).1
          = (findNextSegmentRun e refts now st2).1 :=
  ⟨fun _ => rfl, fun st1 st2 h => by simp [findNextSegmentRun, h]⟩

/-- Witness for C9: two concrete states sharing `ranW` but differing in
schedule name, fields and store. -/
theorem findNextSegmentRun_pure_witness :
    (findNextSegmentRun evalW 9 10 st1W).2 = st1W
    ∧ (findNextSegmentRun evalW 9 10 st1W).1 = (findNextSegmentRun evalW 9 10 st2W).1 :=
  ⟨(findNextSegmentRun_pure evalW 9 10).1 st1W,
   (findNextSegmentRun_pure evalW 9 10).2 st1W st2W (by decide)⟩

/-- Claim C10: at any clock value `now > 0`, `FindNextSegment` returns the
sentinel `(0, 0)` or a pair beginning at or after `now`, and the sentinel
appears exactly when the loop found no candidate — so the sentinel test in
`CreateNextDowntime` never misclassifies a genuine future segment. -/
theorem findNextSegment_sentinel_sound (e : Evaluator) (refts now : Int)
    (ranges : List (String × String)) (h : 0 < now) :
    (findNextSegment e refts now ranges = (0, 0)
      ∨ now ≤ (findNextSegment e refts now ranges).1)
    ∧ (findNextSegment e refts now ranges = (0, 0)
      ↔ bestCand e refts now ranges = none) := by
  cases hbc : bestCand e refts now ranges with
  | none =>
    have hfs : findNextSegment e refts now ranges = (0, 0) := by
      simp [findNextSegment, hbc]
    exact ⟨Or.inl hfs, by simp [hfs]⟩
  | some b =>
    have hfs : findNextSegment e refts now ranges = b := by
      simp [findNextSegment, hbc]
    have hge : now ≤ b.1 :=
      mem_eligible_ge e refts now ranges (bestCand_mem e refts now ranges hbc)
    refine ⟨Or.inr (by rw [hfs]; exact hge), ?_⟩
    rw [hfs]
    constructor
    · intro hb0
      exfalso
      rw [hb0] at hge
      simp at hge
      omega
    · intro hnone
      cases hnone

/-- Witness for C10: `now = 10 > 0` with `evalW`, where the selected
segment is genuine. -/
theorem findNextSegment_sentinel_sound_witness :
    (0 : Int) < 10
    ∧ ((findNextSegment evalW 9 10 ranW = (0, 0)
        ∨ (10 : Int) ≤ (findNextSegment evalW 9 10 ranW).1)
      ∧ (findNextSegment evalW 9 10 ranW = (0, 0)
        ↔ bestCand evalW 9 10 ranW = none)) :=
  ⟨by decide, findNextSegment_sentinel_sound evalW 9 10 ranW (by decide)⟩

/-- Claim C1: when the store already holds a window owned by the schedule
with start time at or after `now`, `CreateNextDowntime` is a no-op;
consequently running it twice in immediate succession is the same as
running it once, and a single run grows the store by at most one window. -/
theorem createNextDowntime_reconcile_idempotent (e : Evaluator) (refts now : Int)
    (midnightRef : Tm) (sd : ScheduledDowntime) (store : List Downtime) :
    ((∃ d ∈ store, d.scheduledBy = sd.name ∧ now ≤ d.startTime) →
      createNextDowntime e refts now midnightRef sd store = store)
    ∧ createNextDowntime e refts now midnightRef sd
        (createNextDowntime e refts now midnightRef sd store)
        = createNextDowntime e refts now midnightRef sd store
    ∧ (createNextDowntime e refts now midnightRef sd store).length
        ≤ store.length + 1 := by
  refine ⟨?_, ?_, ?_⟩
  · rintro ⟨d, hd, hs, hge⟩
    simp [createNextDowntime, hasPending_of_mem hd hs hge]
  · rcases createNextDowntime_cases e refts now midnightRef sd store with
      heq | ⟨w, heq, hws, hge⟩
    · rw [heq]
      exact heq
    · rw [heq]
      have hpend : hasPendingOwnWindow sd.name now (store ++ [w]) = true :=
        hasPending_of_mem (show w ∈ store ++ [w] by simp) hws hge
      simp [createNextDowntime, hpend]
  · rcases createNextDowntime_cases e refts now midnightRef sd store with
      heq | ⟨w, heq, _, _⟩
    · rw [heq]
      exact Nat.le_succ _
    · rw [heq]
      simp

/-- Witness for C1: with `dwW` (owned by `sdW`, starting at 150 ≥ 10)
already stored, reconciliation leaves the store unchanged. -/
theorem createNextDowntime_reconcile_idempotent_witness :
    (∃ d ∈ [dwW], d.scheduledBy = sdW.name ∧ (10 : Int) ≤ d.startTime)
    ∧ createNextDowntime evalW 9 10 tmW sdW [dwW] = [dwW] := by
  have hex : ∃ d ∈ [dwW], d.scheduledBy = sdW.name ∧ (10 : Int) ≤ d.startTime :=
    ⟨dwW, by simp, by decide, by decide⟩
  exact ⟨hex, (createNextDowntime_reconcile_idempotent evalW 9 10 tmW sdW [dwW]).1 hex⟩

/-- Claim C4: when no pending self-owned window exists and the selector
picks a segment, the window created by `CreateNextDowntime` carries exactly
the segment bounds and the schedule fields — `startTime` and `endTime`
from the segment, `fixed`, `duration`, `author` and `comment` from the
schedule, and `scheduledBy = configOwner = schedule name`. -/
theorem createNextDowntime_window_fields (e : Evaluator) (refts now : Int)
    (midnightRef : Tm) (sd : ScheduledDowntime) (store : List Downtime)
    (seg : Int × Int)
    (hp : hasPendingOwnWindow sd.name now store = false)
    (hb : bestCand e refts now sd.ranges = some seg)
    (hnow : 0 < now) :
    createNextDowntime e refts now midnightRef sd store
      = store ++
        [{ scheduledBy := sd.name
           configOwner := sd.name
           startTime := seg.1
           endTime := seg.2
           fixed := sd.fixed
           duration := sd.duration
           author := sd.author
           comment := sd.comment
           triggeredBy := "" }] := by
  have hge : now ≤ seg.1 :=
    mem_eligible_ge e refts now sd.ranges (bestCand_mem e refts now sd.ranges hb)
  refine createNextDowntime_creation_eq e refts now midnightRef sd store seg hp hb ?_
  rintro ⟨h1, _⟩
  omega

/-- Witness for C4: `sdW` on an empty store at `now = 10` materializes the
segment `(100, 200)` with all schedule fields and both ownership tags. -/
theorem createNextDowntime_window_fields_witness :
    hasPendingOwnWindow sdW.name 10 [] = false
    ∧ bestCand evalW 9 10 sdW.ranges = some (100, 200)
    ∧ createNextDowntime evalW 9 10 tmW sdW []
        = [{ scheduledBy := "host1!S"
             configOwner := "host1!S"
             startTime := 100
             endTime := 200
             fixed := true
             duration := 0
             author := "adm"
             comment := "maint"
             triggeredBy := "" }] := by
  refine ⟨by decide, by decide, ?_⟩
  have h := createNextDowntime_window_fields evalW 9 10 tmW sdW [] (100, 200)
    (by decide) (by decide) (by decide)
  simpa [sdW] using h

/-- Claim C6: when the selector finds no candidate, `CreateNextDowntime`
leaves the store unchanged (no window is created, and the embedding is
total, so no error arises), and the "next midnight" value computed in this
branch has no observable effect: the result does not depend on it. -/
theorem createNextDowntime_no_segment_noop (e : Evaluator) (refts now : Int)
    (t1 t2 : Tm) (sd : ScheduledDowntime) (store : List Downtime)
    (h : bestCand e refts now sd.ranges = none) :
    createNextDowntime e refts now t1 sd store = store
    ∧ createNextDowntime e refts now t1 sd store
        = createNextDowntime e refts now t2 sd store := by
  have hfs : findNextSegment e refts now sd.ranges = (0, 0) := by
    simp [findNextSegment, h]
  have hstore : ∀ t : Tm, createNextDowntime e refts now t sd store = store := by
    intro t
    by_cases hp : hasPendingOwnWindow sd.name now store = true
    · simp [createNextDowntime, hp]
    · have hp2 : hasPendingOwnWindow sd.name now store = false := by
        simpa using hp
      simp [createNextDowntime, hp2, hfs]
  exact ⟨hstore t1, (hstore t1).trans (hstore t2).symm⟩

/-- Witness for C6: `sdZ` has no matching rule under `evalW`, and its
reconciliation leaves the empty store empty for any midnight reference. -/
theorem createNextDowntime_no_segment_noop_witness :
    bestCand evalW 9 10 sdZ.ranges = none
    ∧ createNextDowntime evalW 9 10 tmW sdZ [] = []
    ∧ createNextDowntime evalW 9 10 tmW sdZ []
        = createNextDowntime evalW 9 10 tmW2 sdZ [] :=
  ⟨by decide,
   (createNextDowntime_no_segment_noop evalW 9 10 tmW tmW2 sdZ [] (by decide)).1,
   (createNextDowntime_no_segment_noop evalW 9 10 tmW tmW2 sdZ [] (by decide)).2⟩

/-- Counterexample for C3: with both entries malformed (the key parser
rejects every key), validation reports only one `ValidationError` — the
one for the first entry `"a"` — although the second entry `"b"` is just as
malformed; it does not aggregate one error per malformed entry. -/
theorem validateRanges_stops_at_first_cex :
    validateRanges pkFail pvOk refTm0 (some [("a", "x"), ("b", "y")])
      = Except.error
          { attrPath := ["ranges"]
            message := "Invalid time specification " ++ sq ++ "a" ++ sq ++ ": bad key" }
    ∧ pkFail "b" refTm0 = Except.error "bad key" :=
  ⟨rfl, rfl⟩

/-- Claim C3 (amended): when the rules dictionary contains malformed
entries, validation reports a single validation error for the first
malformed entry in iteration order — tagged to the `ranges` field and
carrying the offending key (resp. value) and the underlying parser
message — and stops there. -/
theorem validateRanges_reports_first_failure (parseKey parseValue : RangeParse)
    (reference : Tm) (l1 : List (String × String)) (k v : String)
    (l2 : List (String × String)) (msg : String)
    (hok : ∀ kv ∈ l1, parseKey kv.1 reference = Except.ok ()
      ∧ parseValue kv.2 reference = Except.ok ()) :
    (parseKey k reference = Except.error msg →
      validateRanges parseKey parseValue reference (some (l1 ++ (k, v) :: l2))
        = Except.error
            { attrPath := ["ranges"]
              message := "Invalid time specification " ++ sq ++ k ++ sq ++ ": " ++ msg })
    ∧ (parseKey k reference = Except.ok () →
        parseValue v reference = Except.error msg →
      validateRanges parseKey parseValue reference (some (l1 ++ (k, v) :: l2))
        = Except.error
            { attrPath := ["ranges"]
              message := "Invalid time range definition " ++ sq ++ v ++ sq ++ ": " ++ msg }) := by
  have hskip := validateRangesLoop_append_ok parseKey parseValue reference l1 hok
    ((k, v) :: l2)
  constructor
  · intro hk
    simp [validateRanges, hskip, validateRangesLoop, hk]
  · intro hk hv
    simp [validateRanges, hskip, validateRangesLoop, hk, hv]

/-- Witness for C3 (amended): a clean entry followed by the malformed key
`"bad"` yields exactly the error for `"bad"`. -/
theorem validateRanges_reports_first_failure_witness :
    validateRanges pkSel pvOk refTm0 (some [("good", "x"), ("bad", "y")])
      = Except.error
          { attrPath := ["ranges"]
            message := "Invalid time specification " ++ sq ++ "bad" ++ sq ++ ": bad key" } := by
  have hok : ∀ kv ∈ [(("good" : String), ("x" : String))],
      pkSel kv.1 refTm0 = Except.ok () ∧ pvOk kv.2 refTm0 = Except.ok () := by
    intro kv hkv
    simp only [List.mem_singleton] at hkv
    subst hkv
    exact ⟨rfl, rfl⟩
  simpa using (validateRanges_reports_first_failure pkSel pvOk refTm0
    [("good", "x")] "bad" "y" [] "bad key" hok).1 rfl

/-- Counterexample for C7: validation does not reject a schedule whose
rules collection is absent or empty — a null dictionary and an empty
dictionary both pass without error, even when every parser would fail. -/
theorem validateRanges_accepts_empty_cex :
    validateRanges pkFail pvFail refTm0 none = Except.ok ()
    ∧ validateRanges pkFail pvFail refTm0 (some []) = Except.ok () :=
  ⟨rfl, rfl⟩

/-- Claim C7 (amended): validation accepts an absent or empty rules
collection without error; and for every rules list that validation
accepts, every entry parses successfully — key and value — against the
reference time. -/
theorem validateRanges_accept_invariant (parseKey parseValue : RangeParse)
    (reference : Tm) :
    validateRanges parseKey parseValue reference none = Except.ok ()
    ∧ validateRanges parseKey parseValue reference (some []) = Except.ok ()
    ∧ ∀ l, validateRanges parseKey parseValue reference (some l) = Except.ok () →
        ∀ kv ∈ l, parseKey kv.1 reference = Except.ok ()
          ∧ parseValue kv.2 reference = Except.ok () :=
  ⟨rfl, rfl, fun l hl => validateRangesLoop_ok parseKey parseValue reference l hl⟩

/-- Witness for C7 (amended): an accepted one-entry rules list has its
entry parsed successfully on both sides. -/
theorem validateRanges_accept_invariant_witness :
    pkOk "a" refTm0 = Except.ok () ∧ pvOk "x" refTm0 = Except.ok () :=
  (validateRanges_accept_invariant pkOk pvOk refTm0).2.2 [("a", "x")] rfl
    ("a", "x") (by simp)

/-- Counterexample for C8: the timer pass has no per-schedule failure
isolation — when reconciliation of schedule `"A"` throws, the whole pass
aborts with that error and schedule `"B"` is not reconciled, although its
own reconciliation would have succeeded. -/
theorem timerProc_abort_cex :
    timerProc stepFailA [(sdA, []), (sdB, [])] = Except.error "boom"
    ∧ stepFailA sdB [] = Except.ok [wB] :=
  ⟨rfl, rfl⟩

/-- Claim C8 (amended): on each tick the loop invokes reconciliation for
every live schedule in sequence when none fails, but an exception raised
while reconciling one schedule propagates out of the pass, so the
schedules after it are not reconciled on that tick. -/
theorem timerProc_pass_behavior
    (step : ScheduledDowntime → List Downtime → Except String (List Downtime))
    (f : ScheduledDowntime → List Downtime → List Downtime) :
    ((∀ sd st, step sd st = Except.ok (f sd st)) →
      ∀ world, timerProc step world
        = Except.ok (world.map fun p => (p.1, f p.1 p.2)))
    ∧ ∀ sd st msg rest, step sd st = Except.error msg →
        timerProc step ((sd, st) :: rest) = Except.error msg := by
  constructor
  · intro hok world
    induction world with
    | nil => rfl
    | cons p rest ih =>
      cases p with
      | mk sd st => simp [timerProc, hok sd st, ih]
  · intro sd st msg rest h
    simp [timerProc, h]

/-- Witness for C8 (amended): with an always-succeeding step, both
schedules of a two-schedule world are reconciled in one pass. -/
theorem timerProc_pass_behavior_witness :
    timerProc stepOkW [(sdA, []), (sdB, [])]
      = Except.ok [(sdA, [wB]), (sdB, [wB])] := by
  simpa using (timerProc_pass_behavior stepOkW (fun _ st => st ++ [wB])).1
    (fun _ _ => rfl) [(sdA, []), (sdB, [])]

end Icinga
